import Mathlib

/-!
# docker-health-exporter: the two HTTP handlers and the base-path option

A shallow embedding of `main.go`.  Go strings are Lean `String`s, `len` is the
UTF-8 byte count, `[]byte(s)` is the UTF-8 encoding.  A Go `error` is modelled
by its message (`err.Error()`), `nil` by `none`.  The response writer, the
process log and the requests sent to the container runtime are explicit state.
`http.HandleFunc` either adds a pattern to the mux or panics, as `ServeMux`
does for a pattern it cannot parse.
-/

namespace DockerHealthExporter

/-! ## Go built-ins and the `strings` package -/

/-- Go `[]byte(s)`: the UTF-8 bytes of a string. -/
def bytes (s : String) : List UInt8 := s.toUTF8.data.toList

/-- Go `len(s)` for a string: its number of bytes. -/
def len (s : String) : Nat := s.utf8ByteSize

/-- Go `strings.HasPrefix`. -/
def HasPrefix (s pre : String) : Bool := pre.data.isPrefixOf s.data

/-- Go `strings.TrimPrefix`: `s` without the leading `pre`, or `s` itself when
`s` does not start with `pre`. -/
def TrimPrefix (s pre : String) : String :=
  if HasPrefix s pre then ⟨s.data.drop pre.data.length⟩ else s

/-- Go `strings.TrimLeft`: drop every leading code point contained in `cutset`. -/
def TrimLeft (s cutset : String) : String :=
  ⟨s.data.dropWhile (fun c => cutset.data.contains c)⟩

/-- Go `strings.TrimRight`: drop every trailing code point contained in `cutset`. -/
def TrimRight (s cutset : String) : String :=
  ⟨(s.data.reverse.dropWhile (fun c => cutset.data.contains c)).reverse⟩

/-- Go `strings.Trim`: drop leading and trailing code points contained in `cutset`. -/
def Trim (s cutset : String) : String :=
  TrimLeft (TrimRight s cutset) cutset

/-! ## main.go, lines 17-40: `HealthStatus`, `Options`, `parseOptions` -/

/-- The Go type `HealthStatus = int64`; only the four constants below are ever stored. -/
abbrev HealthStatus := Int

def HealthStatus_NONE : HealthStatus := 0
def HealthStatus_STARTING : HealthStatus := 1
def HealthStatus_HEALTHY : HealthStatus := 2
def HealthStatus_UNHEALTHY : HealthStatus := 3

structure Options where
  BaseUrl : String
  deriving DecidableEq, Repr

/-- Lines 30-40.  `env` is `os.Getenv("BASE_URL")` (the flag's default value) and
`flagValue` is the value of `-base-url` on the command line, when given. -/
def parseOptions (env : String) (flagValue : Option String) : Options :=
  let BaseUrl := flagValue.getD env
  if BaseUrl ≠ "" then
    { BaseUrl := "/" ++ Trim BaseUrl "/" }
  else
    { BaseUrl := BaseUrl }

/-! ## `net/http`: registration of patterns in `ServeMux` (Go 1.23 and later) -/

/-- Functions of the Go standard library that the pattern parser calls and that
are taken as given: the Unicode tables behind `unicode.IsLetter` and
`unicode.IsDigit`, and `cleanPath` of `net/http`. -/
structure Lib where
  IsLetter : Char → Bool
  IsDigit : Char → Bool
  cleanPath : String → String

/-- The token characters of RFC 7230 (`httpguts.IsTokenRune`): the ASCII letters
and digits and fifteen marks, of which the apostrophe (39) and the grave accent
(96) are given by their code.  The slash is not one of them. -/
def isTokenRune (c : Char) : Bool :=
  c.isAlphanum || "!#$%&*+-.^_|~".data.contains c || c == Char.ofNat 39 || c == Char.ofNat 96

/-- The function `validMethod` of `net/http`: a non-empty string of token characters. -/
def validMethod (method : String) : Bool :=
  method != "" && method.data.all isTokenRune

def ishex (c : Nat) : Bool :=
  (48 ≤ c && c ≤ 57) || (97 ≤ c && c ≤ 102) || (65 ≤ c && c ≤ 70)

def unhex (c : Nat) : Nat :=
  if 48 ≤ c ∧ c ≤ 57 then c - 48
  else if 97 ≤ c ∧ c ≤ 102 then c - 97 + 10
  else if 65 ≤ c ∧ c ≤ 70 then c - 65 + 10
  else 0

/-- The percent-decoding of `url.PathUnescape`, on the bytes of a string: `none`
when a `%` is not followed by two hexadecimal digits. -/
def unescape : List Nat → Option (List Nat)
  | [] => some []
  | c :: rest =>
    if c = 37 then
      match rest with
      | a :: b :: rest2 =>
        if ishex a && ishex b then (unescape rest2).map (fun l => (unhex a * 16 + unhex b) :: l)
        else none
      | _ => none
    else (unescape rest).map (fun l => c :: l)

/-- The function `pathUnescape` of `net/http`: the decoded bytes, or the bytes
of the string itself when the escaping is invalid. -/
def pathUnescape (path : String) : List Nat :=
  (unescape ((bytes path).map UInt8.toNat)).getD ((bytes path).map UInt8.toNat)

/-- A segment of a pattern: `s` holds the bytes of a literal or of a wildcard name. -/
structure segment where
  s : List Nat
  wild : Bool
  multi : Bool
  deriving DecidableEq, Repr

/-- A parsed `ServeMux` pattern. -/
structure pattern where
  str : String
  method : String
  host : String
  segments : List segment
  deriving DecidableEq, Repr

/-- The pieces of a list of characters between the occurrences of `sep`. -/
def splitOn (sep : Char) : List Char → List (List Char)
  | [] => [[]]
  | c :: cs =>
    if c = sep then [] :: splitOn sep cs
    else
      match splitOn sep cs with
      | [] => [[c]]
      | x :: xs => (c :: x) :: xs

/-- The function `isValidWildcardName`: a Go identifier. -/
def isValidWildcardName (lib : Lib) (s : List Char) : Bool :=
  s != [] && s.enum.all (fun ic => lib.IsLetter ic.2 || ic.2 == '_' || (ic.1 != 0 && lib.IsDigit ic.2))

/-- The loop of `parsePattern` over the path, on the pieces that follow each
"/" of the path: `seg` is the current piece and `rest` the pieces after it, so
that Go's `len(rest) == 0` after a segment is `rest = []` here and a last empty
piece is the trailing slash. -/
def parseSegments (lib : Lib) : List (List Char) → List (List Char) → Except String (List segment)
  | [], _ => .ok []
  | seg :: rest, seenNames =>
    if seg = [] ∧ rest = [] then
      .ok [{ s := [], wild := true, multi := true }]
    else if ¬ seg.contains '\x7b' then
      match parseSegments lib rest seenNames with
      | .error e => .error e
      | .ok segs => .ok ({ s := pathUnescape ⟨seg⟩, wild := false, multi := false } :: segs)
    else if seg.head? ≠ some '\x7b' then
      .error "bad wildcard segment (must start with '\x7b')"
    else if seg.getLast? ≠ some '\x7d' then
      .error "bad wildcard segment (must end with '\x7d')"
    else
      let name := (seg.drop 1).dropLast
      if name = ['$'] then
        if rest ≠ [] then .error "\x7b$\x7d not at end"
        else .ok [{ s := [47], wild := false, multi := false }]
      else
        let multi := "...".data.isSuffixOf name
        let name := if multi then name.take (name.length - 3) else name
        if multi ∧ rest ≠ [] then .error "\x7b...\x7d wildcard not at end"
        else if name = [] then .error "empty wildcard"
        else if ¬ isValidWildcardName lib name then .error "bad wildcard name"
        else if seenNames.contains name then .error "duplicate wildcard name"
        else
          match parseSegments lib rest (name :: seenNames) with
          | .error e => .error e
          | .ok segs =>
            .ok ({ s := (bytes ⟨name⟩).map UInt8.toNat, wild := true, multi := multi } :: segs)

/-- The function `parsePattern` of `net/http`: `[METHOD ][HOST]/[PATH]`, the
method ending at the first space or tab (in Go 1.22, at the first space).  The
error is the message of the Go error, without the offset and without the
quoted operand. -/
def parsePattern (lib : Lib) (s : String) : Except String pattern :=
  if s = "" then .error "empty pattern"
  else
    let cut := s.data.span (fun c => !(" \t".data.contains c))
    let method : String := if cut.2 = [] then "" else ⟨cut.1⟩
    let rest : List Char :=
      if cut.2 = [] then cut.1 else (cut.2.drop 1).dropWhile (fun c => " \t".data.contains c)
    if method ≠ "" ∧ ¬ validMethod method then .error "invalid method"
    else
      let hp := rest.span (fun c => c != '/')
      if hp.2 = [] then .error "host/path missing /"
      else if hp.1.contains '\x7b' then .error "host contains '\x7b' (missing initial '/'?)"
      else if method ≠ "" ∧ method ≠ "CONNECT" ∧ String.mk hp.2 ≠ lib.cleanPath ⟨hp.2⟩ then
        .error "non-CONNECT pattern with unclean path can never match"
      else
        match parseSegments lib (splitOn '/' hp.2).tail [] with
        | .error e => .error e
        | .ok segments => .ok { str := s, method := method, host := ⟨hp.1⟩, segments := segments }

/-- How the sets of requests matched by two patterns relate. -/
inductive relationship where
  | equivalent
  | moreGeneral
  | moreSpecific
  | disjoint
  | overlaps
  deriving DecidableEq, Repr

def inverseRelationship : relationship → relationship
  | .moreSpecific => .moreGeneral
  | .moreGeneral => .moreSpecific
  | r => r

def combineRelationships (r1 r2 : relationship) : relationship :=
  match r1 with
  | .equivalent => r2
  | .disjoint => .disjoint
  | .overlaps => if r2 = .disjoint then .disjoint else .overlaps
  | _ =>
    if r2 = .equivalent then r1
    else if r2 = inverseRelationship r1 then .overlaps
    else r2

def compareSegments (s1 s2 : segment) : relationship :=
  if s1.multi ∧ s2.multi then .equivalent
  else if s1.multi then .moreGeneral
  else if s2.multi then .moreSpecific
  else if s1.wild ∧ s2.wild then .equivalent
  else if s1.wild then (if s2.s = [47] then .disjoint else .moreGeneral)
  else if s2.wild then (if s1.s = [47] then .disjoint else .moreSpecific)
  else if s1.s = s2.s then .equivalent
  else .disjoint

def compareMethods (p1 p2 : pattern) : relationship :=
  if p1.method = p2.method then .equivalent
  else if p1.method = "" then .moreGeneral
  else if p2.method = "" then .moreSpecific
  else if p1.method = "GET" ∧ p2.method = "HEAD" then .moreGeneral
  else if p2.method = "GET" ∧ p1.method = "HEAD" then .moreSpecific
  else .disjoint

/-- The field `multi` of the last segment. -/
def lastMulti (segs : List segment) : Bool :=
  match segs.getLast? with
  | some seg => seg.multi
  | none => false

/-- The loop of `comparePaths` over corresponding segments and the cases after it;
`multi1` and `multi2` tell whether each pattern ends in a multi wildcard. -/
def compareFrom (multi1 multi2 : Bool) : relationship → List segment → List segment → relationship
  | rel, s1 :: segs1, s2 :: segs2 =>
    if combineRelationships rel (compareSegments s1 s2) = .disjoint then .disjoint
    else compareFrom multi1 multi2 (combineRelationships rel (compareSegments s1 s2)) segs1 segs2
  | rel, [], [] => rel
  | rel, [], _ :: _ => if multi1 then combineRelationships rel .moreGeneral else .disjoint
  | rel, _ :: _, [] => if multi2 then combineRelationships rel .moreSpecific else .disjoint

def comparePaths (p1 p2 : pattern) : relationship :=
  if p1.segments.length ≠ p2.segments.length ∧ ¬ lastMulti p1.segments ∧ ¬ lastMulti p2.segments then
    .disjoint
  else
    compareFrom (lastMulti p1.segments) (lastMulti p2.segments) .equivalent p1.segments p2.segments

def comparePathsAndMethods (p1 p2 : pattern) : relationship :=
  if compareMethods p1 p2 = .disjoint then .disjoint
  else combineRelationships (compareMethods p1 p2) (comparePaths p1 p2)

def conflictsWith (p1 p2 : pattern) : Bool :=
  if p1.host ≠ p2.host then false
  else comparePathsAndMethods p1 p2 = .equivalent ∨ comparePathsAndMethods p1 p2 = .overlaps

/-- The patterns registered in a `ServeMux`, in registration order. -/
abbrev ServeMux := List pattern

/-- Go `http.HandleFunc` with a non-nil handler: the pattern is added to the mux,
or the call panics (`Except.error`) when the pattern is empty, does not parse or
conflicts with a registered pattern. -/
def HandleFunc (lib : Lib) (mux : ServeMux) (patstr : String) : Except String ServeMux :=
  if patstr = "" then .error "http: invalid pattern"
  else
    match parsePattern lib patstr with
    | .error e => .error e
    | .ok pat =>
      if mux.any (fun pat2 => conflictsWith pat pat2) then .error "pattern conflicts"
      else .ok (mux ++ [pat])

/-- Lines 132-133 of `main`: the two calls of `http.HandleFunc` on the default
mux, empty at that point.  The result is the list of the registered patterns,
in order, or the panic that ends `main`. -/
def registeredPatterns (lib : Lib) (options : Options) : Except String (List String) :=
  match HandleFunc lib [] (options.BaseUrl ++ "/metrics") with
  | .error e => .error e
  | .ok mux =>
    match HandleFunc lib mux (options.BaseUrl ++ "/health") with
    | .error e => .error e
    | .ok mux => .ok (mux.map (fun pat => pat.str))

/-- A choice of the library functions for examples: ASCII letters and digits, and
a `cleanPath` that changes nothing. -/
def asciiLib : Lib :=
  { IsLetter := Char.isAlpha, IsDigit := Char.isDigit, cleanPath := fun p => p }

/-! ## The container runtime client -/

/-- Docker `types.Health`, the fields read by the handler. -/
structure Health where
  Status : String
  deriving DecidableEq, Repr

/-- Docker `types.ContainerState`; `Health` is a nilable pointer. -/
structure ContainerState where
  Health : Option Health
  deriving DecidableEq, Repr

/-- Docker `types.ContainerJSON`, the inspection result; `State` is a nilable pointer. -/
structure ContainerJSON where
  ID : String
  Name : String
  State : Option ContainerState
  deriving DecidableEq, Repr

/-- Docker `types.Container`, an entry of the list result. -/
structure Container where
  ID : String
  deriving DecidableEq, Repr

/-- The runtime client as seen during one request: the outcome of each call,
`Except.error` carrying the message of the Go error.  The outcome of an
inspection depends on the container ID only. -/
structure Client where
  Ping : Except String Unit
  ContainerList : Except String (List Container)
  ContainerInspect : String → Except String ContainerJSON

/-- A request sent to the runtime client. -/
inductive Call where
  | ping
  | list
  | inspect (id : String)
  deriving DecidableEq, Repr

/-! ## `http.ResponseWriter` and `slog` -/

/-- An `http.Header` map restricted to single values. -/
abbrev Header := List (String × String)

/-- Go `Header.Set`: replace whatever is stored under `key`. -/
def Header.Set (h : Header) (key value : String) : Header :=
  (key, value) :: h.filter (fun kv => kv.1 != key)

/-- The response writer: `header` is the map returned by `Header()`; the first
`WriteHeader` fixes the status and the headers that are sent (`sent`), and
changes made to `header` afterwards are not sent. -/
structure ResponseWriter where
  header : Header
  wroteHeader : Bool
  status : Nat
  sent : Header
  body : List UInt8
  deriving DecidableEq

/-- The writer handed to a handler at the start of a request. -/
def ResponseWriter.fresh : ResponseWriter :=
  { header := [], wroteHeader := false, status := 0, sent := [], body := [] }

def ResponseWriter.WriteHeader (w : ResponseWriter) (code : Nat) : ResponseWriter :=
  if w.wroteHeader then w
  else { w with wroteHeader := true, status := code, sent := w.header }

def ResponseWriter.SetHeader (w : ResponseWriter) (key value : String) : ResponseWriter :=
  { w with header := w.header.Set key value }

/-- Go `Write`: an implicit `WriteHeader(200)` when no status was written yet. -/
def ResponseWriter.Write (w : ResponseWriter) (b : List UInt8) : ResponseWriter :=
  let w := if w.wroteHeader then w else w.WriteHeader 200
  { w with body := w.body ++ b }

/-- One `slog` record: level, message and key/value attributes. -/
structure Record where
  level : String
  msg : String
  attrs : List (String × String)
  deriving DecidableEq, Repr

/-- What a handler can change: the response, the log and the calls made so far. -/
structure State where
  writer : ResponseWriter
  log : List Record
  calls : List Call
  deriving DecidableEq

/-- The state at the start of a request, with the log as it stands. -/
def State.request (log : List Record) : State :=
  { writer := ResponseWriter.fresh, log := log, calls := [] }

/-! ## main.go, lines 42-119: the handlers -/

/-- Lines 42-52.  A handler returns its error (`none` for `nil`) and the new state. -/
def errorMiddleware (client : Client)
    (handler : Client → State → Option String × State) (st : State) : State :=
  match handler client st with
  | (some err, st) => { st with writer := (st.writer.WriteHeader 500).Write (bytes err) }
  | (none, st) => st

/-- Lines 54-64. -/
def healthHandler (client : Client) (st : State) : Option String × State :=
  let st := { st with calls := st.calls ++ [Call.ping] }
  match client.Ping with
  | .error _ => (some "nok", st)
  | .ok _ => (none, { st with writer := (st.writer.WriteHeader 200).Write (bytes "ok") })

/-- Lines 85-104: the health value computed for one inspection result. -/
def healthStatus (inspect : ContainerJSON) : HealthStatus :=
  match inspect.State with
  | none => HealthStatus_NONE
  | some state =>
    match state.Health with
    | none => HealthStatus_NONE
    | some health =>
      if health.Status = "starting" then HealthStatus_STARTING
      else if health.Status = "healthy" then HealthStatus_HEALTHY
      else if health.Status = "unhealthy" then HealthStatus_UNHEALTHY
      else HealthStatus_NONE

/-- Lines 106-111: the `fmt.Sprintf` call, `%s` copying a string and `%d`
printing the integer in decimal. -/
def formatSample (name id : String) (health : HealthStatus) : String :=
  "container_state_health_status\x7bcontainer_name=\"" ++ name ++ "\", container_id=\"" ++ id
    ++ "\"\x7d " ++ toString health ++ "\r\n"

/-- Lines 77-112: the loop over the listed containers.  The result is the error
returned from inside the loop, or the value of `output` after it. -/
def inspectLoop (client : Client) :
    List Container → String → State → Except String String × State
  | [], output, st => (.ok output, st)
  | container :: rest, output, st =>
    let st := { st with calls := st.calls ++ [Call.inspect container.ID] }
    match client.ContainerInspect container.ID with
    | .error err =>
      (.error "internal server error",
        { st with log := st.log ++
            [⟨"ERROR", "failed to inspect container",
              [("container_id", container.ID), ("err", err)]⟩] })
    | .ok inspect =>
      let health := healthStatus inspect
      inspectLoop client rest
        (output ++ formatSample (TrimPrefix inspect.Name "/") inspect.ID health) st

def helpLine : String :=
  "# HELP container_state_health_status Docker container Health checks status (mapped as int)\r\n"

def typeLine : String :=
  "# TYPE container_state_health_status gauge\r\n"

/-- Lines 66-119. -/
def metricsHandler (client : Client) (st : State) : Option String × State :=
  let st := { st with calls := st.calls ++ [Call.list] }
  match client.ContainerList with
  | .error err =>
    (some "internal server error",
      { st with log := st.log ++ [⟨"ERROR", "failed to list containers", [("err", err)]⟩] })
  | .ok containers =>
    let output := helpLine ++ typeLine
    match inspectLoop client containers output st with
    | (.error e, st) => (some e, st)
    | (.ok output, st) =>
      let w := st.writer.WriteHeader 200
      let w := w.SetHeader "Content-Type" "text/plain; version=0.0.4; charset=utf-8"
      let w := w.SetHeader "Content-Length" (toString (len output))
      let w := w.Write (bytes output)
      (none, { st with writer := w })

/-! ## The specification's wording of the sample line -/

/-- The container name with one leading `/` removed when there is one. -/
def specName (name : String) : String :=
  match name.data with
  | '/' :: rest => ⟨rest⟩
  | _ => name

/-- The sample line for one inspection result: the stripped name, the ID of the
inspection result and the health value in decimal. -/
def specSampleLine (r : ContainerJSON) : String :=
  "container_state_health_status\x7bcontainer_name=\"" ++ specName r.Name
    ++ "\", container_id=\"" ++ r.ID ++ "\"\x7d " ++ toString (healthStatus r) ++ "\r\n"

/-! ## Auxiliary definitions for the statements -/

/-- Every container of `cs` is inspected successfully, with results `rs`. -/
abbrev Inspected (client : Client) (cs : List Container) (rs : List ContainerJSON) : Prop :=
  List.Forall₂ (fun c r => client.ContainerInspect c.ID = .ok r) cs rs

/-- The writer after the four calls of lines 114-117 on a fresh writer. -/
def successWriter (output : String) : ResponseWriter :=
  { header := [("Content-Length", toString (len output)),
      ("Content-Type", "text/plain; version=0.0.4; charset=utf-8")],
    wroteHeader := true, status := 200, sent := [], body := bytes output }

/-- The writer after `errorMiddleware` reported the error `err` on a fresh writer. -/
def errorWriter (err : String) : ResponseWriter :=
  { header := [], wroteHeader := true, status := 500, sent := [], body := bytes err }

/-- The literal segment made from one piece of the path. -/
def literalSegment (seg : List Char) : segment :=
  { s := pathUnescape ⟨seg⟩, wild := false, multi := false }

/-- The string made of `n` characters `/`. -/
def slashes (n : Nat) : String := ⟨List.replicate n '/'⟩

/-! ## Concrete runtimes used as examples -/

/-- Two containers: `/app1` (id `abc`, healthy) and `nolead` (id `def`, no health). -/
def demoClient : Client :=
  { Ping := .ok (),
    ContainerList := .ok [⟨"abc"⟩, ⟨"def"⟩],
    ContainerInspect := fun id =>
      if id = "abc" then .ok ⟨"abc", "/app1", some ⟨some ⟨"healthy"⟩⟩⟩
      else if id = "def" then .ok ⟨"def", "nolead", some ⟨none⟩⟩
      else .error "No such container" }

/-- A runtime that is down: every call fails. -/
def downClient : Client :=
  { Ping := .error "connection refused",
    ContainerList := .error "connection refused",
    ContainerInspect := fun _ => .error "connection refused" }

/-- A runtime with no container. -/
def emptyClient : Client :=
  { Ping := .ok (),
    ContainerList := .ok [],
    ContainerInspect := fun _ => .error "No such container" }

/-- The list names `abc`, `gone`, `def`; `gone` was removed before its inspection. -/
def racyClient : Client :=
  { demoClient with ContainerList := .ok [⟨"abc"⟩, ⟨"gone"⟩, ⟨"def"⟩] }

/-- One healthy container whose name `/café` is not ASCII. -/
def cafeClient : Client :=
  { Ping := .ok (),
    ContainerList := .ok [⟨"c1"⟩],
    ContainerInspect := fun _ => .ok ⟨"c1", "/café", some ⟨some ⟨"healthy"⟩⟩⟩ }

/-! ## Lemmas on strings and lists -/

theorem bytes_length (s : String) : (bytes s).length = len s := by
  exact String.size_toUTF8 s

theorem specName_eq_TrimPrefix (name : String) : TrimPrefix name "/" = specName name := by
  rcases name with ⟨l⟩
  rcases l with _ | ⟨c, rest⟩
  · rfl
  · by_cases hc : c = '/'
    · subst hc
      simp [TrimPrefix, HasPrefix, specName]
    · simp [TrimPrefix, HasPrefix, specName, hc]
      intro h
      exact absurd h.symm hc

theorem specSampleLine_eq (r : ContainerJSON) :
    formatSample (TrimPrefix r.Name "/") r.ID (healthStatus r) = specSampleLine r := by
  unfold formatSample specSampleLine
  rw [specName_eq_TrimPrefix]

theorem foldl_append_join (l : List String) (out : String) :
    l.foldl (fun r s => r ++ s) out = out ++ String.join l := by
  have key : ∀ (l : List String) (a b : String),
      l.foldl (fun r s => r ++ s) (a ++ b) = a ++ l.foldl (fun r s => r ++ s) b := by
    intro l
    induction l with
    | nil => intro a b; rfl
    | cons x xs ih =>
      intro a b
      simp only [List.foldl_cons]
      rw [String.append_assoc, ih]
  have h := key l out ""
  simpa [String.join] using h

theorem join_cons (x : String) (xs : List String) :
    String.join (x :: xs) = x ++ String.join xs := by
  have h := foldl_append_join xs x
  simpa [String.join] using h

/-! ## Lemmas on the inspection loop -/

theorem inspected_of_forall (client : Client) (cs : List Container)
    (h : ∀ c ∈ cs, ∃ r, client.ContainerInspect c.ID = .ok r) :
    ∃ rs, Inspected client cs rs := by
  induction cs with
  | nil => exact ⟨[], List.Forall₂.nil⟩
  | cons c cs ih =>
    obtain ⟨r, hr⟩ := h c (List.mem_cons_self c cs)
    obtain ⟨rs, hrs⟩ := ih (fun x hx => h x (List.mem_cons_of_mem c hx))
    exact ⟨r :: rs, List.Forall₂.cons hr hrs⟩

theorem forall_of_inspected (client : Client) (cs : List Container) (rs : List ContainerJSON)
    (h : Inspected client cs rs) : ∀ c ∈ cs, ∃ r, client.ContainerInspect c.ID = .ok r := by
  induction h with
  | nil => intro c hc; cases hc
  | cons hr _ ih =>
    intro c hc
    rcases List.mem_cons.mp hc with rfl | hc
    · exact ⟨_, hr⟩
    · exact ih c hc

/-- A list with a failing inspection splits at the first one. -/
theorem first_failure (client : Client) (cs : List Container)
    (h : ∃ c ∈ cs, ∃ e, client.ContainerInspect c.ID = .error e) :
    ∃ pre rs c post e, cs = pre ++ c :: post ∧ Inspected client pre rs ∧
      client.ContainerInspect c.ID = .error e := by
  induction cs with
  | nil =>
    obtain ⟨c, hc, _⟩ := h
    cases hc
  | cons x xs ih =>
    cases hx : client.ContainerInspect x.ID with
    | error e => exact ⟨[], [], x, xs, e, rfl, List.Forall₂.nil, hx⟩
    | ok r =>
      have h2 : ∃ c ∈ xs, ∃ e, client.ContainerInspect c.ID = .error e := by
        obtain ⟨c, hc, e, he⟩ := h
        rcases List.mem_cons.mp hc with rfl | hc
        · rw [hx] at he; cases he
        · exact ⟨c, hc, e, he⟩
      obtain ⟨pre, rs, c, post, e, hsplit, hpre, he⟩ := ih h2
      exact ⟨x :: pre, r :: rs, c, post, e, by rw [hsplit]; rfl, List.Forall₂.cons hx hpre, he⟩

/-- Either every inspection succeeds or one fails. -/
theorem inspected_or_failure (client : Client) (cs : List Container) :
    (∃ rs, Inspected client cs rs) ∨
      (∃ c ∈ cs, ∃ e, client.ContainerInspect c.ID = .error e) := by
  induction cs with
  | nil => exact Or.inl ⟨[], List.Forall₂.nil⟩
  | cons x xs ih =>
    cases hx : client.ContainerInspect x.ID with
    | error e => exact Or.inr ⟨x, List.mem_cons_self x xs, e, hx⟩
    | ok r =>
      rcases ih with ⟨rs, hrs⟩ | ⟨c, hc, e, he⟩
      · exact Or.inl ⟨r :: rs, List.Forall₂.cons hx hrs⟩
      · exact Or.inr ⟨c, List.mem_cons_of_mem x hc, e, he⟩

theorem inspectLoop_ok (client : Client) (cs : List Container) (rs : List ContainerJSON)
    (h : Inspected client cs rs) (output : String) (st : State) :
    inspectLoop client cs output st =
      (.ok (output ++ String.join (rs.map specSampleLine)),
        { st with calls := st.calls ++ cs.map (fun c => Call.inspect c.ID) }) := by
  induction h generalizing output st with
  | nil => simp [inspectLoop, String.join]
  | @cons c r cs rs hr _ ih =>
    simp only [inspectLoop, hr, ih, specSampleLine_eq, List.map_cons, join_cons,
      String.append_assoc, List.append_assoc, List.singleton_append]

theorem inspectLoop_error (client : Client) (pre : List Container) (rs : List ContainerJSON)
    (h : Inspected client pre rs) (c : Container) (post : List Container) (e : String)
    (he : client.ContainerInspect c.ID = .error e) (output : String) (st : State) :
    inspectLoop client (pre ++ c :: post) output st =
      (.error "internal server error",
        { st with
          calls := st.calls ++ (pre ++ [c]).map (fun c => Call.inspect c.ID),
          log := st.log ++ [⟨"ERROR", "failed to inspect container",
            [("container_id", c.ID), ("err", e)]⟩] }) := by
  induction h generalizing output st with
  | nil => simp [inspectLoop, he]
  | @cons x r xs rs hr _ ih =>
    have step := ih (output ++ formatSample (TrimPrefix r.Name "/") r.ID (healthStatus r))
      { st with calls := st.calls ++ [Call.inspect x.ID] }
    simp only [List.cons_append, inspectLoop, hr]
    refine step.trans ?_
    simp only [List.map_cons, List.append_assoc, List.singleton_append]

/-! ## Lemmas on the handlers -/

theorem metrics_run_ok (client : Client) (log : List Record) (cs : List Container)
    (rs : List ContainerJSON) (hlist : client.ContainerList = .ok cs)
    (h : Inspected client cs rs) :
    errorMiddleware client metricsHandler (State.request log) =
      { writer := successWriter (helpLine ++ typeLine ++ String.join (rs.map specSampleLine)),
        log := log,
        calls := Call.list :: cs.map (fun c => Call.inspect c.ID) } := by
  simp [errorMiddleware, metricsHandler, hlist, inspectLoop_ok client cs rs h, State.request,
    successWriter, ResponseWriter.fresh, ResponseWriter.WriteHeader, ResponseWriter.SetHeader,
    ResponseWriter.Write, Header.Set]

theorem metrics_run_inspect_error (client : Client) (st : State) (pre : List Container)
    (rs : List ContainerJSON) (c : Container) (post : List Container) (e : String)
    (hlist : client.ContainerList = .ok (pre ++ c :: post)) (h : Inspected client pre rs)
    (he : client.ContainerInspect c.ID = .error e) :
    errorMiddleware client metricsHandler st =
      { writer := (st.writer.WriteHeader 500).Write (bytes "internal server error"),
        log := st.log ++ [⟨"ERROR", "failed to inspect container",
          [("container_id", c.ID), ("err", e)]⟩],
        calls := st.calls ++ Call.list :: (pre ++ [c]).map (fun c => Call.inspect c.ID) } := by
  simp [errorMiddleware, metricsHandler, hlist, inspectLoop_error client pre rs h c post e he]

theorem metrics_run_list_error (client : Client) (st : State) (e : String)
    (hlist : client.ContainerList = .error e) :
    errorMiddleware client metricsHandler st =
      { writer := (st.writer.WriteHeader 500).Write (bytes "internal server error"),
        log := st.log ++ [⟨"ERROR", "failed to list containers", [("err", e)]⟩],
        calls := st.calls ++ [Call.list] } := by
  simp [errorMiddleware, metricsHandler, hlist]

theorem fresh_error (err : String) :
    (ResponseWriter.fresh.WriteHeader 500).Write (bytes err) = errorWriter err := by
  simp [ResponseWriter.fresh, ResponseWriter.WriteHeader, ResponseWriter.Write, errorWriter]

/-! ## Lemmas on `Trim` -/

theorem dropWhile_replicate_append {α : Type} (p : α → Bool) (x : α) (hx : p x = true)
    (n : Nat) (l : List α) :
    (List.replicate n x ++ l).dropWhile p = l.dropWhile p := by
  induction n with
  | zero => simp
  | succ n ih => simp [List.replicate_succ, List.dropWhile_cons, hx, ih]

theorem dropWhile_of_head {α : Type} (p : α → Bool) (l : List α)
    (h : ∀ x, l.head? = some x → p x = false) : l.dropWhile p = l := by
  cases l with
  | nil => rfl
  | cons a as => simp [List.dropWhile_cons, h a rfl]

theorem head?_reverse_append {α : Type} (l m : List α) (hl : l ≠ []) :
    (l.reverse ++ m).head? = l.getLast? := by
  rw [List.head?_append, List.head?_reverse]
  cases h : l.getLast? with
  | none => exact absurd (List.getLast?_eq_none_iff.mp h) hl
  | some z => rfl

theorem trim_slashes (a b : Nat) (t : String) (hhead : t.data.head? ≠ some '/')
    (hlast : t.data.getLast? ≠ some '/') (hne : t ≠ "") :
    Trim (slashes a ++ t ++ slashes b) "/" = t := by
  rcases t with ⟨l⟩
  have hl : l ≠ [] := by
    intro h
    exact hne (congrArg String.mk h)
  have hp : (fun c : Char => "/".data.contains c) '/' = true := by decide
  have hq : ∀ c : Char, c ≠ '/' → (fun c : Char => "/".data.contains c) c = false := by
    intro c hc
    simp [hc]
  have hright : ((List.replicate a '/' ++ l ++ List.replicate b '/').reverse.dropWhile
      (fun c : Char => "/".data.contains c)).reverse = List.replicate a '/' ++ l := by
    rw [List.reverse_append, List.reverse_append, List.reverse_replicate,
      List.reverse_replicate, dropWhile_replicate_append _ _ hp]
    rw [dropWhile_of_head]
    · simp
    · intro x hx
      apply hq
      rintro rfl
      rw [head?_reverse_append l _ hl] at hx
      exact hlast hx
  have hleft : (List.replicate a '/' ++ l).dropWhile (fun c : Char => "/".data.contains c)
      = l := by
    rw [dropWhile_replicate_append _ _ hp, dropWhile_of_head]
    intro x hx
    apply hq
    rintro rfl
    exact hhead hx
  show TrimLeft (TrimRight (slashes a ++ ⟨l⟩ ++ slashes b) "/") "/" = ⟨l⟩
  simp only [TrimLeft, TrimRight, slashes, String.data_append, hright, hleft]

/-- Trimming a list that holds an element outside the cutset: the result is not
empty and neither its first nor its last element is in the cutset. -/
theorem trim_list_spec {α : Type} (p : α → Bool) (l : List α) (h : ∃ x ∈ l, p x = false) :
    ((l.reverse.dropWhile p).reverse.dropWhile p) ≠ [] ∧
    (∀ x, ((l.reverse.dropWhile p).reverse.dropWhile p).head? = some x → p x = false) ∧
    (∀ x, ((l.reverse.dropWhile p).reverse.dropWhile p).getLast? = some x → p x = false) := by
  obtain ⟨c, hc, hpc⟩ := h
  have hR : l.reverse.dropWhile p ≠ [] := by
    intro hnil
    have hall := List.dropWhile_eq_nil_iff.mp hnil c (List.mem_reverse.mpr hc)
    rw [hpc] at hall
    exact absurd hall (by decide)
  have hRhead : p ((l.reverse.dropWhile p).head hR) = false := List.head_dropWhile_not p _ hR
  have hT : (l.reverse.dropWhile p).reverse.dropWhile p ≠ [] := by
    intro hnil
    have hall := List.dropWhile_eq_nil_iff.mp hnil ((l.reverse.dropWhile p).head hR)
      (List.mem_reverse.mpr (List.head_mem hR))
    rw [hRhead] at hall
    exact absurd hall (by decide)
  refine ⟨hT, ?_, ?_⟩
  · intro x hx
    have hnot := List.head?_dropWhile_not p (l.reverse.dropWhile p).reverse
    rw [hx] at hnot
    exact hnot
  · intro x hx
    rw [List.getLast?_eq_getLast _ hT] at hx
    have hlast := List.IsSuffix.getLast
      (List.dropWhile_suffix p : (l.reverse.dropWhile p).reverse.dropWhile p
        <:+ (l.reverse.dropWhile p).reverse) hT
    rw [hlast, List.getLast_reverse] at hx
    have hxe : (l.reverse.dropWhile p).head hR = x := Option.some.inj hx
    rw [← hxe]
    exact hRhead

/-- For every input that holds a character other than "/", the base path
computed by `parseOptions` is "/" followed by a non-empty segment that neither
starts nor ends with "/". -/
theorem parseOptions_normalized (env : String) (flagValue : Option String)
    (h : ∃ c ∈ (flagValue.getD env).data, c ≠ '/') :
    ∃ t : List Char, (parseOptions env flagValue).BaseUrl = ⟨'/' :: t⟩ ∧ t ≠ [] ∧
      t.head? ≠ some '/' ∧ t.getLast? ≠ some '/' := by
  have hp : (fun c : Char => "/".data.contains c) '/' = true := by decide
  have hne : flagValue.getD env ≠ "" := by
    intro h0
    obtain ⟨c, hc, _⟩ := h
    rw [h0] at hc
    cases hc
  obtain ⟨h1, h2, h3⟩ := trim_list_spec (fun c : Char => "/".data.contains c)
    (flagValue.getD env).data (by
      obtain ⟨c, hc, hcs⟩ := h
      exact ⟨c, hc, by simp [hcs]⟩)
  refine ⟨_, ?_, h1, ?_, ?_⟩
  · simp only [parseOptions, hne, ne_eq, not_false_eq_true, if_true, Trim, TrimLeft, TrimRight]
    rfl
  · intro hx
    exact absurd (hp.symm.trans (h2 _ hx)) (by decide)
  · intro hx
    exact absurd (hp.symm.trans (h3 _ hx)) (by decide)

/-! ## Lemmas on the registration of patterns -/

theorem splitOn_ne_nil (sep : Char) (l : List Char) : splitOn sep l ≠ [] := by
  cases l with
  | nil => simp [splitOn]
  | cons c cs =>
    simp only [splitOn]
    split
    · simp
    · split <;> simp

theorem splitOn_cons_ne (sep c : Char) (cs x : List Char) (xs : List (List Char))
    (h : c ≠ sep) (hs : splitOn sep cs = x :: xs) :
    splitOn sep (c :: cs) = (c :: x) :: xs := by
  simp [splitOn, h, hs]

theorem splitOn_exists (sep : Char) (l : List Char) : ∃ x xs, splitOn sep l = x :: xs := by
  cases hs : splitOn sep l with
  | nil => exact absurd hs (splitOn_ne_nil sep l)
  | cons x xs => exact ⟨x, xs, rfl⟩

theorem splitOn_append (sep : Char) (b m : List Char) :
    splitOn sep (b ++ sep :: m) = splitOn sep b ++ splitOn sep m := by
  induction b with
  | nil => simp [splitOn]
  | cons c cs ih =>
    by_cases h : c = sep
    · simp [splitOn, h, ih]
    · obtain ⟨x, xs, hs⟩ := splitOn_exists sep cs
      have hs2 : splitOn sep (cs ++ sep :: m) = x :: (xs ++ splitOn sep m) := by
        rw [ih, hs]; rfl
      rw [List.cons_append, splitOn_cons_ne sep c _ _ _ h hs2, splitOn_cons_ne sep c cs _ _ h hs]
      rfl

theorem splitOn_of_not_mem (sep : Char) (m : List Char) (h : sep ∉ m) : splitOn sep m = [m] := by
  induction m with
  | nil => rfl
  | cons c cs ih =>
    have hc : c ≠ sep := fun e => h (e ▸ List.mem_cons_self c cs)
    have hcs : sep ∉ cs := fun e => h (List.mem_cons_of_mem c e)
    simp [splitOn, hc, ih hcs]

theorem splitOn_mem (sep : Char) (l : List Char) :
    ∀ x ∈ splitOn sep l, ∀ c ∈ x, c ∈ l := by
  induction l with
  | nil =>
    intro x hx c hc
    simp only [splitOn, List.mem_singleton] at hx
    subst hx
    exact hc
  | cons a as ih =>
    intro x hx c hc
    by_cases h : a = sep
    · simp only [splitOn, h, if_true, List.mem_cons] at hx
      rcases hx with rfl | hx
      · cases hc
      · exact List.mem_cons_of_mem _ (ih x hx c hc)
    · obtain ⟨y, ys, hs⟩ := splitOn_exists sep as
      rw [splitOn_cons_ne sep a as y ys h hs] at hx
      rcases List.mem_cons.mp hx with rfl | hx
      · rcases List.mem_cons.mp hc with rfl | hc
        · exact List.mem_cons_self _ _
        · exact List.mem_cons_of_mem _ (ih y (hs ▸ List.mem_cons_self y ys) c hc)
      · exact List.mem_cons_of_mem _ (ih x (hs ▸ List.mem_cons_of_mem y hx) c hc)

theorem parseSegments_literal (lib : Lib) (m : List Char) (hm : m ≠ [])
    (hmb : '\x7b' ∉ m) (seen : List (List Char)) :
    ∀ Y : List (List Char), (∀ x ∈ Y, '\x7b' ∉ x) →
      parseSegments lib (Y ++ [m]) seen = .ok ((Y ++ [m]).map literalSegment) := by
  intro Y
  induction Y with
  | nil =>
    intro _
    simp [parseSegments, hm, hmb, literalSegment]
  | cons y ys ih =>
    intro hY
    have hy : '\x7b' ∉ y := hY y (List.mem_cons_self y ys)
    have hys := ih (fun x hx => hY x (List.mem_cons_of_mem y hx))
    simp [parseSegments, hy, hys, literalSegment]

theorem span_all {α : Type} (p : α → Bool) (l : List α) (h : ∀ x ∈ l, p x = true) :
    l.span p = (l, []) := by
  rw [List.span_eq_take_drop]
  simp only [Prod.mk.injEq, List.takeWhile_eq_self_iff, List.dropWhile_eq_nil_iff]
  exact ⟨h, h⟩

theorem parsePattern_literal (lib : Lib) (b m : List Char)
    (hb : b = [] ∨ b.head? = some '/')
    (hchars : ∀ c ∈ b, c ≠ ' ' ∧ c ≠ '\t' ∧ c ≠ '\x7b')
    (hm : m ≠ []) (hmchars : ∀ c ∈ m, c ≠ ' ' ∧ c ≠ '\t' ∧ c ≠ '\x7b' ∧ c ≠ '/') :
    parsePattern lib ⟨b ++ '/' :: m⟩ =
      .ok { str := ⟨b ++ '/' :: m⟩, method := "", host := "",
            segments := ((splitOn '/' b).tail ++ [m]).map literalSegment } := by
  have hall : ∀ c ∈ b ++ '/' :: m, c ≠ ' ' ∧ c ≠ '\t' ∧ c ≠ '\x7b' := by
    intro c hc
    rcases List.mem_append.mp hc with hc | hc
    · exact hchars c hc
    · rcases List.mem_cons.mp hc with rfl | hc
      · decide
      · exact ⟨(hmchars c hc).1, (hmchars c hc).2.1, (hmchars c hc).2.2.1⟩
  have hcut : (b ++ '/' :: m).span (fun c => !(" \t".data.contains c)) = (b ++ '/' :: m, []) := by
    apply span_all
    intro c hc
    have := hall c hc
    simp [this.1, this.2.1]
  obtain ⟨q, hq⟩ : ∃ q, b ++ '/' :: m = '/' :: q := by
    rcases hb with rfl | hb
    · exact ⟨m, rfl⟩
    · cases b with
      | nil => cases hb
      | cons x xs =>
        simp only [List.head?_cons, Option.some.injEq] at hb
        subst hb
        exact ⟨xs ++ '/' :: m, rfl⟩
  have hsplit : (splitOn '/' (b ++ '/' :: m)).tail = (splitOn '/' b).tail ++ [m] := by
    rw [splitOn_append, splitOn_of_not_mem '/' m (fun h => (hmchars _ h).2.2.2 rfl)]
    obtain ⟨x, xs, hs⟩ := splitOn_exists '/' b
    rw [hs]
    rfl
  have hseg := parseSegments_literal lib m hm (fun h => (hmchars _ h).2.2.1 rfl) []
    (splitOn '/' b).tail (by
      intro x hx hc
      exact (hchars _ (splitOn_mem '/' b x (List.mem_of_mem_tail hx) _ hc)).2.2 rfl)
  have hne : (String.mk (b ++ '/' :: m)) ≠ "" := by
    intro h
    have := congrArg String.data h
    rw [hq] at this
    cases this
  have hhost : ('/' :: q).span (fun c => c != '/') = ([], '/' :: q) := by
    simp [List.span_eq_take_drop]
  simp only [parsePattern, hne, if_false, hcut]
  rw [hq] at hsplit ⊢
  simp [hhost, hsplit, hseg]

theorem compareSegments_literal_self (seg : List Char) :
    compareSegments (literalSegment seg) (literalSegment seg) = .equivalent := by
  simp [compareSegments, literalSegment]

theorem compareFrom_literal (multi1 multi2 : Bool) (m1 m2 : List Char)
    (hne : pathUnescape ⟨m1⟩ ≠ pathUnescape ⟨m2⟩) (Y : List (List Char)) :
    compareFrom multi1 multi2 .equivalent ((Y ++ [m1]).map literalSegment)
      ((Y ++ [m2]).map literalSegment) = .disjoint := by
  induction Y with
  | nil => simp [compareFrom, compareSegments, literalSegment, combineRelationships, hne]
  | cons y ys ih =>
    simp only [List.cons_append, List.map_cons, compareFrom, compareSegments_literal_self,
      combineRelationships]
    simpa using ih

theorem lastMulti_literal (Y : List (List Char)) (m : List Char) :
    lastMulti ((Y ++ [m]).map literalSegment) = false := by
  simp [lastMulti, literalSegment]

theorem conflictsWith_literal (s1 s2 : String) (m1 m2 : List Char)
    (hne : pathUnescape ⟨m1⟩ ≠ pathUnescape ⟨m2⟩) (Y : List (List Char)) :
    conflictsWith
      { str := s1, method := "", host := "", segments := (Y ++ [m1]).map literalSegment }
      { str := s2, method := "", host := "", segments := (Y ++ [m2]).map literalSegment }
      = false := by
  have hp : comparePaths
      { str := s1, method := "", host := "", segments := (Y ++ [m1]).map literalSegment }
      { str := s2, method := "", host := "", segments := (Y ++ [m2]).map literalSegment }
      = .disjoint := by
    unfold comparePaths
    split
    · rfl
    · exact compareFrom_literal _ _ m1 m2 hne Y
  unfold conflictsWith comparePathsAndMethods
  rw [hp]
  simp [compareMethods, combineRelationships]

theorem parsePattern_str (lib : Lib) (s : String) (pat : pattern)
    (h : parsePattern lib s = .ok pat) : pat.str = s := by
  unfold parsePattern at h
  simp only at h
  repeat' split at h
  all_goals first | (cases h; done) | (cases h; rfl)

theorem HandleFunc_str (lib : Lib) (mux mux2 : ServeMux) (patstr : String)
    (h : HandleFunc lib mux patstr = .ok mux2) :
    mux2.map (fun pat => pat.str) = mux.map (fun pat => pat.str) ++ [patstr] := by
  unfold HandleFunc at h
  split at h
  · cases h
  · split at h
    · cases h
    · rename_i pat hpat
      split at h
      · cases h
      · cases h
        simp [parsePattern_str lib patstr pat hpat]

theorem HandleFunc_literal (lib : Lib) (mux : ServeMux) (patstr : String) (pat : pattern)
    (hne : patstr ≠ "") (hp : parsePattern lib patstr = .ok pat)
    (hc : mux.any (fun pat2 => conflictsWith pat pat2) = false) :
    HandleFunc lib mux patstr = .ok (mux ++ [pat]) := by
  unfold HandleFunc
  rw [if_neg hne, hp]
  simp only [hc]
  rfl

/-- When `main` registers its routes at all, they are the two patterns built
from the base path. -/
theorem registeredPatterns_ok (lib : Lib) (options : Options) (ps : List String)
    (h : registeredPatterns lib options = .ok ps) :
    ps = [options.BaseUrl ++ "/metrics", options.BaseUrl ++ "/health"] := by
  unfold registeredPatterns at h
  split at h
  · cases h
  · rename_i mux1 h1
    split at h
    · cases h
    · rename_i mux2 h2
      cases h
      rw [HandleFunc_str lib mux1 mux2 _ h2, HandleFunc_str lib [] mux1 _ h1]
      rfl

/-- A base path that is empty or starts with "/" and holds no space, tab or
opening brace: both patterns are accepted. -/
theorem registeredPatterns_literal (lib : Lib) (b : List Char)
    (hb : b = [] ∨ b.head? = some '/')
    (hchars : ∀ c ∈ b, c ≠ ' ' ∧ c ≠ '\t' ∧ c ≠ '\x7b') :
    registeredPatterns lib { BaseUrl := ⟨b⟩ }
      = .ok [String.mk b ++ "/metrics", String.mk b ++ "/health"] := by
  have e1 : String.mk b ++ "/metrics" = ⟨b ++ '/' :: "metrics".data⟩ := rfl
  have e2 : String.mk b ++ "/health" = ⟨b ++ '/' :: "health".data⟩ := rfl
  have p1 := parsePattern_literal lib b "metrics".data hb hchars (by decide) (by decide)
  have p2 := parsePattern_literal lib b "health".data hb hchars (by decide) (by decide)
  have hne1 : String.mk (b ++ '/' :: "metrics".data) ≠ "" := by
    intro h
    have := congrArg String.data h
    simp at this
  have hne2 : String.mk (b ++ '/' :: "health".data) ≠ "" := by
    intro h
    have := congrArg String.data h
    simp at this
  have hc := conflictsWith_literal ⟨b ++ '/' :: "health".data⟩ ⟨b ++ '/' :: "metrics".data⟩
    "health".data "metrics".data (by decide) (splitOn '/' b).tail
  have h1 := HandleFunc_literal lib [] _ _ hne1 p1 rfl
  have h2 := HandleFunc_literal lib
    [{ str := ⟨b ++ '/' :: "metrics".data⟩, method := "", host := "",
       segments := ((splitOn '/' b).tail ++ ["metrics".data]).map literalSegment }]
    _ _ hne2 p2 (by
      simp only [List.any_cons, List.any_nil, Bool.or_false]
      exact hc)
  simp only [registeredPatterns, e1, e2, h1, List.nil_append, h2, List.singleton_append,
    List.map_cons, List.map_nil]

/-! ## The claims -/

/-- C1: the health mapping of `metricsHandler` is a total function that gives 1
for the status "starting", 2 for "healthy", 3 for "unhealthy" when State and
Health are present, and 0 in every other case: any other status string, an
absent State, an absent Health. -/
theorem healthStatus_mapping (inspect : ContainerJSON) :
    (∀ state health, inspect.State = some state → state.Health = some health →
      (health.Status = "starting" → healthStatus inspect = 1) ∧
      (health.Status = "healthy" → healthStatus inspect = 2) ∧
      (health.Status = "unhealthy" → healthStatus inspect = 3) ∧
      (health.Status ≠ "starting" → health.Status ≠ "healthy" →
        health.Status ≠ "unhealthy" → healthStatus inspect = 0)) ∧
    (inspect.State = none → healthStatus inspect = 0) ∧
    (∀ state, inspect.State = some state → state.Health = none → healthStatus inspect = 0) := by
  refine ⟨?_, ?_, ?_⟩
  · intro state health hs hh
    refine ⟨?_, ?_, ?_, ?_⟩
    · intro h
      simp [healthStatus, hs, hh, h, HealthStatus_STARTING]
    · intro h
      simp [healthStatus, hs, hh, h, HealthStatus_HEALTHY]
    · intro h
      simp [healthStatus, hs, hh, h, HealthStatus_UNHEALTHY]
    · intro h1 h2 h3
      simp [healthStatus, hs, hh, h1, h2, h3, HealthStatus_NONE]
  · intro hs
    simp [healthStatus, hs, HealthStatus_NONE]
  · intro state hs hh
    simp [healthStatus, hs, hh, HealthStatus_NONE]

/-- Witness of C1: the status strings "Healthy" (a case variant) and "" are
neither of the three recognised ones and map to 0; an absent Health maps to 0. -/
theorem healthStatus_mapping_witness :
    healthStatus ⟨"abc", "/app1", some ⟨some ⟨"Healthy"⟩⟩⟩ = 0 ∧
    healthStatus ⟨"abc", "/app1", some ⟨some ⟨""⟩⟩⟩ = 0 ∧
    healthStatus ⟨"abc", "/app1", some ⟨some ⟨"healthy"⟩⟩⟩ = 2 ∧
    healthStatus ⟨"def", "nolead", some ⟨none⟩⟩ = 0 :=
  ⟨((healthStatus_mapping ⟨"abc", "/app1", some ⟨some ⟨"Healthy"⟩⟩⟩).1 _ _ rfl rfl).2.2.2
      (by decide) (by decide) (by decide),
   ((healthStatus_mapping ⟨"abc", "/app1", some ⟨some ⟨""⟩⟩⟩).1 _ _ rfl rfl).2.2.2
      (by decide) (by decide) (by decide),
   ((healthStatus_mapping ⟨"abc", "/app1", some ⟨some ⟨"healthy"⟩⟩⟩).1 _ _ rfl rfl).2.1 rfl,
   (healthStatus_mapping ⟨"def", "nolead", some ⟨none⟩⟩).2.2 _ rfl rfl⟩

/-- C4: the response of `errorMiddleware(healthHandler)` is status 200 with body
"ok" exactly when the ping succeeds; when the ping fails with any error the
response is status 500 with body "nok" and nothing else is written. -/
theorem health_response (client : Client) (log : List Record) :
    ((errorMiddleware client healthHandler (State.request log)).writer.status = 200 ∧
      (errorMiddleware client healthHandler (State.request log)).writer.body = bytes "ok"
        ↔ ∃ u, client.Ping = .ok u) ∧
    (∀ e, client.Ping = .error e →
      (errorMiddleware client healthHandler (State.request log)).writer = errorWriter "nok") := by
  cases hp : client.Ping with
  | error e =>
    simp [errorMiddleware, healthHandler, hp, State.request, fresh_error, errorWriter]
  | ok u =>
    simp [errorMiddleware, healthHandler, hp, State.request, ResponseWriter.fresh,
      ResponseWriter.WriteHeader, ResponseWriter.Write]

/-- Witness of C4: a runtime that is down gives status 500 with body "nok", not
the text of the error. -/
theorem health_response_witness :
    (errorMiddleware downClient healthHandler (State.request [])).writer.status = 500 ∧
    (errorMiddleware downClient healthHandler (State.request [])).writer.body = bytes "nok" :=
  have h := (health_response downClient []).2 "connection refused" rfl
  ⟨by rw [h]; rfl, by rw [h]; rfl⟩

/-- C7 as stated fails: the segment "a b" is not empty and neither starts nor
ends with "/", yet with the input "a b" the first `http.HandleFunc` panics (the
text before the space, "/a", is read as a method) and no route is registered;
the same holds for the input "x\x7b", whose brace does not open a wildcard. -/
theorem routes_not_registered_with_space :
    ("a b" ≠ "" ∧ "a b".data.head? ≠ some '/' ∧ "a b".data.getLast? ≠ some '/' ∧
      (none : Option String).getD "a b" = slashes 0 ++ "a b" ++ slashes 0) ∧
    (¬ ∃ lib ps, registeredPatterns lib (parseOptions "a b" none) = .ok ps) ∧
    (¬ ∃ lib ps, registeredPatterns lib (parseOptions "x\x7b" none) = .ok ps) := by
  refine ⟨by decide, ?_, ?_⟩
  · rintro ⟨lib, ps, h⟩
    have he : registeredPatterns lib (parseOptions "a b" none) = .error "invalid method" := rfl
    rw [he] at h
    cases h
  · rintro ⟨lib, ps, h⟩
    have he : registeredPatterns lib (parseOptions "x\x7b" none)
        = .error "bad wildcard segment (must start with '\x7b')" := rfl
    rw [he] at h
    cases h

/-- C7 amended: for an input made of a non-empty segment `t`, which neither
starts nor ends with "/" and holds no space, tab or opening brace, surrounded
by any number of "/", the two routes are registered at "/" ++ t ++ "/metrics"
and "/" ++ t ++ "/health"; for the empty input they are registered at
"/metrics" and "/health"; for every input, when `main` registers its routes at
all, they are the base path followed by "/metrics" and by "/health". -/
theorem routes_follow_base_path (lib : Lib) (env : String) (flagValue : Option String) :
    (∀ (t : String) (a b : Nat), t ≠ "" → t.data.head? ≠ some '/' →
      t.data.getLast? ≠ some '/' → (∀ c ∈ t.data, c ≠ ' ' ∧ c ≠ '\t' ∧ c ≠ '\x7b') →
      flagValue.getD env = slashes a ++ t ++ slashes b →
      registeredPatterns lib (parseOptions env flagValue)
        = .ok ["/" ++ t ++ "/metrics", "/" ++ t ++ "/health"]) ∧
    (flagValue.getD env = "" →
      registeredPatterns lib (parseOptions env flagValue) = .ok ["/metrics", "/health"]) ∧
    (∀ ps, registeredPatterns lib (parseOptions env flagValue) = .ok ps →
      ps = [(parseOptions env flagValue).BaseUrl ++ "/metrics",
        (parseOptions env flagValue).BaseUrl ++ "/health"]) := by
  refine ⟨?_, ?_, ?_⟩
  · intro t a b hne hhead hlast hchars hin
    have hnonempty : flagValue.getD env ≠ "" := by
      rw [hin]
      intro h
      have hd := congrArg String.data h
      simp only [String.data_append, slashes] at hd
      have ht : t.data = [] := by
        have h2 : (List.replicate a '/' ++ t.data ++ List.replicate b '/') = [] := hd
        simp only [List.append_eq_nil] at h2
        exact h2.1.2
      exact hne (String.ext ht)
    have hbase : parseOptions env flagValue = { BaseUrl := ⟨'/' :: t.data⟩ } := by
      simp only [parseOptions, hnonempty, ne_eq, not_false_eq_true, if_true]
      rw [hin, trim_slashes a b t hhead hlast hne]
      rfl
    rw [hbase]
    exact registeredPatterns_literal lib ('/' :: t.data) (Or.inr rfl) (by
      intro c hc
      rcases List.mem_cons.mp hc with rfl | hc
      · decide
      · exact hchars c hc)
  · intro h
    have hbase : parseOptions env flagValue = { BaseUrl := ⟨[]⟩ } := by
      simp only [parseOptions, h]
      rfl
    rw [hbase]
    exact registeredPatterns_literal lib [] (Or.inl rfl) (by intro c hc; cases hc)
  · intro ps h
    exact registeredPatterns_ok lib _ ps h

/-- Witness of C7 amended: the input "api/" mounts the routes at /api/metrics
and /api/health, the input "//api/v1/" at /api/v1/metrics and /api/v1/health,
the empty input at /metrics and /health. -/
theorem routes_follow_base_path_witness :
    registeredPatterns asciiLib (parseOptions "api/" none)
      = .ok ["/api/metrics", "/api/health"] ∧
    registeredPatterns asciiLib (parseOptions "" (some "//api/v1/"))
      = .ok ["/api/v1/metrics", "/api/v1/health"] ∧
    registeredPatterns asciiLib (parseOptions "" none) = .ok ["/metrics", "/health"] :=
  ⟨(routes_follow_base_path asciiLib "api/" none).1 "api" 0 1 (by decide) (by decide)
      (by decide) (by decide) (by decide),
   (routes_follow_base_path asciiLib "" (some "//api/v1/")).1 "api/v1" 2 1 (by decide)
      (by decide) (by decide) (by decide) (by decide),
   (routes_follow_base_path asciiLib "" none).2.1 rfl⟩

/-- C8 (the code at the failing inputs): for the inputs "/" and "//" the base
path computed by `parseOptions` is "/", which ends with "/", and the routes are
registered at "//metrics" and "//health". -/
theorem parseOptions_only_slashes :
    (parseOptions "/" none).BaseUrl = "/" ∧
    (parseOptions "//" none).BaseUrl = "/" ∧
    (parseOptions "/" none).BaseUrl.data.getLast? = some '/' ∧
    (∀ lib, registeredPatterns lib (parseOptions "/" none) = .ok ["//metrics", "//health"]) :=
  ⟨by decide, by decide, by decide,
    fun lib => registeredPatterns_literal lib ['/'] (Or.inr rfl) (by decide)⟩

/-- C9 as stated fails: for the empty input the base path is not "/". -/
theorem parseOptions_empty_not_slash : (parseOptions "" none).BaseUrl ≠ "/" := by
  decide

/-- C9 amended: for the empty input (no flag and an empty or unset environment
variable, or an empty flag value) `parseOptions` leaves the base path empty: the
guard on the empty string skips the trimming and the prepending of "/". -/
theorem parseOptions_empty (env : String) :
    (parseOptions "" none).BaseUrl = "" ∧ (parseOptions env (some "")).BaseUrl = "" := by
  constructor <;> rfl

/-- C2: when the list call returns `cs` and every inspection succeeds, with
results `rs` in listing order, the response has status 200 and its body is the
HELP line and the TYPE line followed by one sample line per container, in
listing order, built from the inspection result: its name without one leading
"/", its ID and its health value in decimal.  With no container the body is
the two header lines only. -/
theorem metrics_success_body (client : Client) (log : List Record) (cs : List Container)
    (rs : List ContainerJSON) (hlist : client.ContainerList = .ok cs)
    (hinsp : List.Forall₂ (fun c r => client.ContainerInspect c.ID = .ok r) cs rs) :
    (errorMiddleware client metricsHandler (State.request log)).writer.status = 200 ∧
    (errorMiddleware client metricsHandler (State.request log)).writer.body =
      bytes (helpLine ++ typeLine ++ String.join (rs.map specSampleLine)) ∧
    (cs = [] →
      (errorMiddleware client metricsHandler (State.request log)).writer.body =
        bytes (helpLine ++ typeLine)) := by
  rw [metrics_run_ok client log cs rs hlist hinsp]
  refine ⟨rfl, rfl, ?_⟩
  intro hcs
  subst hcs
  cases hinsp
  rfl

/-- Witness of C2: the containers `/app1` (id `abc`, healthy) and `nolead` (id
`def`, no health) give the two header lines and the two sample lines ending in
2 and 0, in that order; a runtime with no container gives the two header
lines only; the name "//x" loses one "/" only. -/
theorem metrics_success_body_witness :
    (errorMiddleware demoClient metricsHandler (State.request [])).writer.status = 200 ∧
    (errorMiddleware demoClient metricsHandler (State.request [])).writer.body =
      bytes ("# HELP container_state_health_status Docker container Health checks status (mapped as int)\r\n"
        ++ "# TYPE container_state_health_status gauge\r\n"
        ++ "container_state_health_status\x7bcontainer_name=\"app1\", container_id=\"abc\"\x7d 2\r\n"
        ++ "container_state_health_status\x7bcontainer_name=\"nolead\", container_id=\"def\"\x7d 0\r\n") ∧
    (errorMiddleware emptyClient metricsHandler (State.request [])).writer.body =
      bytes ("# HELP container_state_health_status Docker container Health checks status (mapped as int)\r\n"
        ++ "# TYPE container_state_health_status gauge\r\n") ∧
    specName "//x" = "/x" :=
  have h := metrics_success_body demoClient [] [⟨"abc"⟩, ⟨"def"⟩]
    [⟨"abc", "/app1", some ⟨some ⟨"healthy"⟩⟩⟩, ⟨"def", "nolead", some ⟨none⟩⟩] rfl
    (List.Forall₂.cons rfl (List.Forall₂.cons rfl List.Forall₂.nil))
  ⟨h.1, h.2.1.trans (congrArg bytes (by rfl)),
    (metrics_success_body emptyClient [] [] [] rfl List.Forall₂.nil).2.2 rfl, by decide⟩

/-- C3: when the list call fails or at least one inspection fails, the response
of `errorMiddleware(metricsHandler)` is exactly status 500 with body "internal
server error", with no header line and no sample line; the status is 200
exactly when the list call and every inspection succeed. -/
theorem metrics_all_or_nothing (client : Client) (log : List Record) :
    (((∃ e, client.ContainerList = .error e) ∨
        (∃ cs, client.ContainerList = .ok cs ∧
          ∃ c ∈ cs, ∃ e, client.ContainerInspect c.ID = .error e)) →
      (errorMiddleware client metricsHandler (State.request log)).writer
        = errorWriter "internal server error") ∧
    ((errorMiddleware client metricsHandler (State.request log)).writer.status = 200 ↔
      ∃ cs, client.ContainerList = .ok cs ∧
        ∀ c ∈ cs, ∃ r, client.ContainerInspect c.ID = .ok r) := by
  have hfail : ((∃ e, client.ContainerList = .error e) ∨
        (∃ cs, client.ContainerList = .ok cs ∧
          ∃ c ∈ cs, ∃ e, client.ContainerInspect c.ID = .error e)) →
      (errorMiddleware client metricsHandler (State.request log)).writer
        = errorWriter "internal server error" := by
    rintro (⟨e, he⟩ | ⟨cs, hcs, hbad⟩)
    · rw [metrics_run_list_error client _ e he]
      exact fresh_error _
    · obtain ⟨pre, rs, c, post, e, hsplit, hpre, he⟩ := first_failure client cs hbad
      rw [metrics_run_inspect_error client _ pre rs c post e (hsplit ▸ hcs) hpre he]
      exact fresh_error _
  refine ⟨hfail, ?_, ?_⟩
  · intro h200
    cases hl : client.ContainerList with
    | error e =>
      rw [hfail (Or.inl ⟨e, hl⟩)] at h200
      exact absurd h200 (by decide)
    | ok cs =>
      refine ⟨cs, rfl, ?_⟩
      rcases inspected_or_failure client cs with ⟨rs, hrs⟩ | hbad
      · exact forall_of_inspected client cs rs hrs
      · rw [hfail (Or.inr ⟨cs, hl, hbad⟩)] at h200
        exact absurd h200 (by decide)
  · rintro ⟨cs, hl, hall⟩
    obtain ⟨rs, hrs⟩ := inspected_of_forall client cs hall
    rw [metrics_run_ok client log cs rs hl hrs]
    rfl

/-- Witness of C3: the second of three containers cannot be inspected; the
response is status 500 with body "internal server error" and carries no line
for the first container, which was inspected successfully. -/
theorem metrics_all_or_nothing_witness :
    (errorMiddleware racyClient metricsHandler (State.request [])).writer.status = 500 ∧
    (errorMiddleware racyClient metricsHandler (State.request [])).writer.body
      = bytes "internal server error" :=
  have h := (metrics_all_or_nothing racyClient []).1
    (Or.inr ⟨[⟨"abc"⟩, ⟨"gone"⟩, ⟨"def"⟩], rfl, ⟨"gone"⟩, by decide, "No such container", rfl⟩)
  ⟨by rw [h]; rfl, by rw [h]; rfl⟩

/-- C5: on a successful /metrics request the Content-Length value set by
`metricsHandler` is the decimal rendering of the number of bytes of the body
that is written. -/
theorem metrics_content_length (client : Client) (log : List Record) (cs : List Container)
    (hlist : client.ContainerList = .ok cs)
    (hall : ∀ c ∈ cs, ∃ r, client.ContainerInspect c.ID = .ok r) :
    (errorMiddleware client metricsHandler (State.request log)).writer.header.lookup
        "Content-Length"
      = some (toString
          (errorMiddleware client metricsHandler (State.request log)).writer.body.length) := by
  obtain ⟨rs, hrs⟩ := inspected_of_forall client cs hall
  rw [metrics_run_ok client log cs rs hlist hrs]
  simp [successWriter, bytes_length, List.lookup]

/-- Witness of C5: with the container name `/café` the Content-Length value is
"212", the number of bytes of the body, while the text has 211 characters: the
name has 4 characters and 5 bytes. -/
theorem metrics_content_length_witness :
    (errorMiddleware cafeClient metricsHandler (State.request [])).writer.header.lookup
        "Content-Length"
      = some (toString
          (errorMiddleware cafeClient metricsHandler (State.request [])).writer.body.length) ∧
    (errorMiddleware cafeClient metricsHandler (State.request [])).writer.header.lookup
        "Content-Length" = some "212" ∧
    (helpLine ++ typeLine
      ++ specSampleLine ⟨"c1", "/café", some ⟨some ⟨"healthy"⟩⟩⟩).length = 211 ∧
    len "café" = 5 ∧ "café".length = 4 :=
  ⟨metrics_content_length cafeClient [] [⟨"c1"⟩] rfl (fun _ _ => ⟨_, rfl⟩),
    by set_option maxRecDepth 4000 in rfl, by set_option maxRecDepth 4000 in rfl,
    by decide, by decide⟩

/-- The headers sent with a /metrics response are those of the fresh writer: the
first `WriteHeader` comes before any `Header().Set`, on success and on failure. -/
theorem metrics_sent_headers (client : Client) (log : List Record) :
    (errorMiddleware client metricsHandler (State.request log)).writer.sent = [] := by
  cases hl : client.ContainerList with
  | error e =>
    rw [metrics_run_list_error client _ e hl]
    exact congrArg ResponseWriter.sent (fresh_error _)
  | ok cs =>
    rcases inspected_or_failure client cs with ⟨rs, hrs⟩ | hbad
    · rw [metrics_run_ok client log cs rs hl hrs]
      rfl
    · obtain ⟨pre, rs, c, post, e, hsplit, hpre, he⟩ := first_failure client cs hbad
      rw [metrics_run_inspect_error client _ pre rs c post e (hsplit ▸ hl) hpre he]
      exact congrArg ResponseWriter.sent (fresh_error _)

/-- C6 (the code at the failing input): for the runtime with the two containers
`/app1` and `nolead` the request succeeds with status 200, the handler stores
Content-Type and Content-Length in its header map, and the headers committed at
the first `WriteHeader` contain neither of them: `WriteHeader(200)` is called
before the two `Header().Set`. -/
theorem metrics_headers_set_after_commit :
    (errorMiddleware demoClient metricsHandler (State.request [])).writer.status = 200 ∧
    (errorMiddleware demoClient metricsHandler (State.request [])).writer.header.lookup
        "Content-Type" = some "text/plain; version=0.0.4; charset=utf-8" ∧
    (errorMiddleware demoClient metricsHandler (State.request [])).writer.sent.lookup
        "Content-Type" = none ∧
    (errorMiddleware demoClient metricsHandler (State.request [])).writer.sent.lookup
        "Content-Length" = none := by
  rw [metrics_run_ok demoClient [] [⟨"abc"⟩, ⟨"def"⟩]
    [⟨"abc", "/app1", some ⟨some ⟨"healthy"⟩⟩⟩, ⟨"def", "nolead", some ⟨none⟩⟩] rfl
    (List.Forall₂.cons rfl (List.Forall₂.cons rfl List.Forall₂.nil))]
  exact ⟨rfl, by decide, rfl, rfl⟩

/-- C10 as stated fails: when the list call fails, one log entry is appended. -/
theorem metrics_list_failure_is_logged :
    downClient.ContainerList = .error "connection refused" ∧
    (errorMiddleware downClient metricsHandler (State.request [])).log
      = [⟨"ERROR", "failed to list containers", [("err", "connection refused")]⟩] ∧
    (errorMiddleware downClient metricsHandler (State.request [])).log
      ≠ (State.request []).log :=
  ⟨rfl, by decide, by decide⟩

/-- C10 amended: a /metrics request appends exactly one log entry when the list
call fails (the message "failed to list containers" with the error), exactly
one when an inspection fails (the ID of the first failing container and the
error; the containers after it are neither inspected nor logged), and none
when the request succeeds; a /health request never appends a log entry. -/
theorem log_effects (client : Client) (st : State) :
    (∀ e, client.ContainerList = .error e →
      (errorMiddleware client metricsHandler st).log
        = st.log ++ [⟨"ERROR", "failed to list containers", [("err", e)]⟩]) ∧
    (∀ pre c post e, client.ContainerList = .ok (pre ++ c :: post) →
      (∀ x ∈ pre, ∃ r, client.ContainerInspect x.ID = .ok r) →
      client.ContainerInspect c.ID = .error e →
      (errorMiddleware client metricsHandler st).log
        = st.log ++ [⟨"ERROR", "failed to inspect container",
            [("container_id", c.ID), ("err", e)]⟩] ∧
      (errorMiddleware client metricsHandler st).calls
        = st.calls ++ Call.list :: (pre ++ [c]).map (fun x => Call.inspect x.ID)) ∧
    (∀ cs, client.ContainerList = .ok cs →
      (∀ c ∈ cs, ∃ r, client.ContainerInspect c.ID = .ok r) →
      (errorMiddleware client metricsHandler st).log = st.log) ∧
    (errorMiddleware client healthHandler st).log = st.log := by
  refine ⟨?_, ?_, ?_, ?_⟩
  · intro e he
    rw [metrics_run_list_error client st e he]
  · intro pre c post e hl hpre he
    obtain ⟨rs, hrs⟩ := inspected_of_forall client pre hpre
    rw [metrics_run_inspect_error client st pre rs c post e hl hrs he]
    exact ⟨rfl, rfl⟩
  · intro cs hl hall
    obtain ⟨rs, hrs⟩ := inspected_of_forall client cs hall
    simp [errorMiddleware, metricsHandler, hl, inspectLoop_ok client cs rs hrs]
  · cases hp : client.Ping <;> simp [errorMiddleware, healthHandler, hp]

/-- Witness of C10 amended: the second of three containers cannot be inspected;
one entry naming `gone` is appended to the log, and the third container is
not inspected. -/
theorem log_effects_witness :
    (errorMiddleware racyClient metricsHandler (State.request [])).log
      = [⟨"ERROR", "failed to inspect container",
          [("container_id", "gone"), ("err", "No such container")]⟩] ∧
    (errorMiddleware racyClient metricsHandler (State.request [])).calls
      = [Call.list, Call.inspect "abc", Call.inspect "gone"] ∧
    (errorMiddleware demoClient metricsHandler (State.request [])).log = [] ∧
    (errorMiddleware downClient metricsHandler (State.request [])).log
      = [⟨"ERROR", "failed to list containers", [("err", "connection refused")]⟩] :=
  have h := (log_effects racyClient (State.request [])).2.1 [⟨"abc"⟩] ⟨"gone"⟩ [⟨"def"⟩]
    "No such container" rfl
    (fun x hx => ⟨⟨"abc", "/app1", some ⟨some ⟨"healthy"⟩⟩⟩, by
      rw [List.mem_singleton.mp hx]; rfl⟩) rfl
  ⟨h.1, h.2,
   (log_effects demoClient (State.request [])).2.2.1 [⟨"abc"⟩, ⟨"def"⟩] rfl (by
      intro c hc
      simp only [List.mem_cons, List.mem_singleton, List.not_mem_nil, or_false] at hc
      rcases hc with rfl | rfl
      · exact ⟨_, rfl⟩
      · exact ⟨_, rfl⟩),
   (log_effects downClient (State.request [])).1 "connection refused" rfl⟩

end DockerHealthExporter
